import Mathlib

/-!
Shallow embedding of the moby-ryuk resource reaper (testcontainers/moby-ryuk).

The embedding covers the two revisions present in the repository:
the mature reaper (reaper.go: addFilter, handle, resources, affected*,
pruneWait, prune, remove) and the legacy entry point (main.go:
waitForPruneCondition, prune).

Machine conventions: wall-clock instants are integers (nanoseconds since
the Unix epoch, matching Go time.Time at nanosecond resolution); Go maps
are modelled as association lists; Go errors are modelled as explicit
error values; the Docker daemon is modelled as a record of response
functions.
-/

namespace MobyRyuk

/-- A wall-clock instant, nanoseconds since the Unix epoch. -/
abbrev Time := Int

/-- Nanoseconds in a second. -/
def nsPerSec : Int := 1000000000

/-- Go time.Unix(sec, 0): a unix-seconds stamp as an instant. -/
def unixToTime (sec : Int) : Time := sec * nsPerSec

/-- Go a.After(b): strict order on instants. -/
def timeAfter (a b : Time) : Bool := decide (b < a)

/-- A key=value pair of a parsed filter line. -/
abbrev Pair := String × String

/-- Value of a hexadecimal digit, as in net/url unescaping. -/
def hexDigitVal (c : Char) : Option Nat :=
  if '0' ≤ c ∧ c ≤ '9' then some (c.toNat - '0'.toNat)
  else if 'a' ≤ c ∧ c ≤ 'f' then some (c.toNat - 'a'.toNat + 10)
  else if 'A' ≤ c ∧ c ≤ 'F' then some (c.toNat - 'A'.toNat + 10)
  else none

/-- Go net/url.QueryUnescape on a character list: percent-escapes are
decoded, plus becomes space, a malformed escape is an error. -/
def queryUnescapeAux : List Char → Option (List Char)
  | [] => some []
  | '%' :: a :: b :: rest => do
      let ha ← hexDigitVal a
      let hb ← hexDigitVal b
      let r ← queryUnescapeAux rest
      return Char.ofNat (16 * ha + hb) :: r
  | '%' :: _ => none
  | '+' :: rest => (queryUnescapeAux rest).map (' ' :: ·)
  | c :: rest => (queryUnescapeAux rest).map (c :: ·)

/-- Go net/url.QueryUnescape. -/
def queryUnescape (s : String) : Option String :=
  (queryUnescapeAux s.data).map String.mk

/-- Splitting a character list at a separator character, accumulator
form: the reversed characters read so far become a segment at each
separator and at the end. -/
def splitOnCharAux (sep : Char) : List Char → List Char → List String
  | [], cur => [String.mk cur.reverse]
  | c :: rest, cur =>
      if c = sep then String.mk cur.reverse :: splitOnCharAux sep rest []
      else splitOnCharAux sep rest (c :: cur)

/-- Go strings.Cut iterated over a whole string, as in the query-parse
loop: the ampersand-separated segments in order (one empty segment for
the empty string). -/
def splitOnChar (sep : Char) (s : String) : List String :=
  splitOnCharAux sep s.data []

/-- Go strings.Cut(seg, "="): the part before the first equals sign and
the part after it (everything, with empty value, when absent). -/
def cutEq : List Char → List Char × List Char
  | [] => ([], [])
  | '=' :: rest => ([], rest)
  | c :: rest =>
      let (k, v) := cutEq rest
      (c :: k, v)

/-- Go net/url.ParseQuery over the list of ampersand-separated segments:
a segment containing a semicolon is an error, an empty segment is
skipped, other segments are cut at the first equals sign and unescaped.
An error anywhere makes the whole parse fail, matching the caller
(addFilter and the legacy request loop discard the line on error). -/
def parseQuerySegs : List String → Option (List Pair)
  | [] => some []
  | seg :: rest =>
      if seg.data.contains ';' then none
      else if seg = "" then parseQuerySegs rest
      else
        let (k, v) := cutEq seg.data
        match queryUnescape (String.mk k), queryUnescape (String.mk v) with
        | some k, some v => (parseQuerySegs rest).map ((k, v) :: ·)
        | _, _ => none

/-- Go net/url.ParseQuery, yielding the parsed pairs in order of
appearance. -/
def parseQuery (s : String) : Option (List Pair) :=
  parseQuerySegs (splitOnChar '&' s)

/-- One character of Go encoding/json string escaping. -/
def jsonEscapeChar (c : Char) : String :=
  if c = '"' then "\\\""
  else if c = '\\' then "\\\\"
  else if c = '<' then "\\u003c"
  else if c = '>' then "\\u003e"
  else if c = '&' then "\\u0026"
  else if c = '\n' then "\\n"
  else if c = '\t' then "\\t"
  else if c = '\r' then "\\r"
  else String.singleton c

/-- Go encoding/json rendering of a string literal. -/
def jsonQuote (s : String) : String :=
  "\"" ++ String.join (s.data.map jsonEscapeChar) ++ "\""

/-- Lexicographic order on character lists, the order in which Go
encoding/json emits map keys (byte order coincides with code-point
order for UTF-8 text). -/
def charListLe : List Char → List Char → Bool
  | [], _ => true
  | _ :: _, [] => false
  | a :: as, b :: bs => if a = b then charListLe as bs else decide (a < b)

/-- Lexicographic order on strings, boolean form, as Go compares
strings byte by byte. -/
def strLeB (a b : String) : Bool := charListLe a.data b.data

/-- Lexicographic order on strings. -/
def strLe (a b : String) : Prop := charListLe a.data b.data = true

instance : DecidableRel strLe := fun a b => by
  unfold strLe
  infer_instance

/-- Deterministic sort used to model the sorted-key iteration of Go
encoding/json map marshalling. -/
def sortStrings (l : List String) : List String :=
  List.insertionSort strLe l

/-- The values recorded for one filter key, in order of appearance. -/
def valuesFor (ps : List Pair) (k : String) : List String :=
  (ps.filter (fun p => decide (p.1 = k))).map Prod.snd

/-- The distinct filter keys in the canonical (sorted) order. -/
def canonKeys (ps : List Pair) : List String :=
  sortStrings (ps.map Prod.fst).dedup

/-- Canonical JSON for the value set of one key: an object mapping each
distinct value to true, keys sorted, as produced by marshalling the Go
map from values to booleans. -/
def canonValueObj (ps : List Pair) (k : String) : String :=
  "\x7b" ++ String.intercalate ","
    ((sortStrings (valuesFor ps k).dedup).map (fun v => jsonQuote v ++ ":true")) ++ "\x7d"

/-- Canonical JSON of a parsed filter line: the marshalled form of the
docker filters.Args built by adding every parsed key=value pair, used by
addFilter as the store key (reaper.go, addFilter). -/
def canonicalJSON (ps : List Pair) : String :=
  "\x7b" ++ String.intercalate ","
    ((canonKeys ps).map (fun k => jsonQuote k ++ ":" ++ canonValueObj ps k)) ++ "\x7d"

/-- The filter store: the reaper's map from canonical form to filter
arguments, as an insertion-ordered association list. The arguments are
kept as the parsed pair list. -/
abbrev FilterStore := List (String × List Pair)

/-- reaper.addFilter: parse the line; on success compute the canonical
key and insert unless already present. The boolean reports parse
success. -/
def addFilter (st : FilterStore) (msg : String) : FilterStore × Bool :=
  match parseQuery msg with
  | none => (st, false)
  | some ps =>
      let key := canonicalJSON ps
      if st.any (fun e => decide (e.1 = key)) then (st, true)
      else (st ++ [(key, ps)], true)

/-- reaper.filterArgs: the snapshot of stored filter arguments. -/
def filterArgs (st : FilterStore) : List (List Pair) :=
  st.map Prod.snd

/-- reaper.handle, one scanned line: an empty line is only a logged
warning (no reply); any other line is added to the store and answered
with the four bytes ACK and newline, on parse success and parse error
alike. The returned list holds the replies written for the line. -/
def handleLine (st : FilterStore) (line : String) : FilterStore × List String :=
  if line = "" then (st, [])
  else ((addFilter st line).1, ["ACK\n"])

/-- reaper.handle, the scan loop over the lines of a connection. -/
def handleConn (st : FilterStore) : List String → FilterStore × List String
  | [] => (st, [])
  | line :: rest =>
      let step := handleLine st line
      let acc := handleConn step.1 rest
      (acc.1, step.2 ++ acc.2)

/-- A container as returned by ContainerList: identifier, label map
(association list) and unix-seconds creation stamp. -/
structure Container where
  id : String
  labels : List Pair
  created : Int
deriving DecidableEq

/-- A network summary as returned by NetworkList: identifier and native
creation instant. -/
structure NetworkSummary where
  id : String
  created : Time
deriving DecidableEq

/-- A volume as returned by VolumeList: name and textual RFC-3339
creation stamp. -/
structure Volume where
  name : String
  createdAt : String
deriving DecidableEq

/-- An image summary as returned by ImageList: identifier and
unix-seconds creation stamp. -/
structure ImageSummary where
  id : String
  created : Int
deriving DecidableEq

/-- The label marking the reaper's own containers (main.go, ryukLabel). -/
def ryukLabel : String := "org.testcontainers.ryuk"

/-- Go map indexing on a label map: the value for the key, or the empty
string when absent. -/
def labelValue (ls : List Pair) (k : String) : String :=
  match ls.lookup k with
  | some v => v
  | none => ""

/-- An atom of the joined error returned by a plan computation: either a
changes-detected error tagged with resource kind and identifier, or the
failure of one List call. -/
inductive PruneError where
  | changes (kind id : String)
  | listFail (kind msg : String)
deriving DecidableEq

/-- Whether an error atom is a changes-detected error. -/
def PruneError.isChanges : PruneError → Bool
  | .changes _ _ => true
  | .listFail _ _ => false

/-- Go errors.Is(err, errChangesDetected) on a joined error list. -/
def hasChangesDetected (errs : List PruneError) : Bool :=
  errs.any PruneError.isChanges

/-- The Docker daemon as seen through the reaper's client interface:
each List call maps filter arguments to a response or an error. -/
structure DockerClient where
  containerList : List Pair → Except String (List Container)
  networkList : List Pair → Except String (List NetworkSummary)
  volumeList : List Pair → Except String (List Volume)
  imageList : List Pair → Except String (List ImageSummary)

/-- The resources structure of reaper.go: the ResourcePlan, four lists
of identifiers. -/
structure Resources where
  containers : List String
  networks : List String
  volumes : List String
  images : List String
deriving DecidableEq

/-- reaper.affectedContainers, the loop over the listed containers:
skip containers whose ryuk label is the string true; a container created
strictly after since yields a changes-detected error instead of an
identifier. -/
def affectedContainersList (since : Time) : List Container → List String × List PruneError
  | [] => ([], [])
  | c :: rest =>
      let acc := affectedContainersList since rest
      if labelValue c.labels ryukLabel = "true" then acc
      else if timeAfter (unixToTime c.created) since then
        (acc.1, .changes "container" c.id :: acc.2)
      else (c.id :: acc.1, acc.2)

/-- reaper.affectedContainers: list, then filter by creation time. -/
def affectedContainers (since : Time) (cl : DockerClient) (args : List Pair) :
    List String × List PruneError :=
  match cl.containerList args with
  | .error e => ([], [.listFail "container" e])
  | .ok cs => affectedContainersList since cs

/-- reaper.affectedNetworks, the loop over the listed networks. -/
def affectedNetworksList (since : Time) : List NetworkSummary → List String × List PruneError
  | [] => ([], [])
  | n :: rest =>
      let acc := affectedNetworksList since rest
      if timeAfter n.created since then (acc.1, .changes "network" n.id :: acc.2)
      else (n.id :: acc.1, acc.2)

/-- reaper.affectedNetworks: list, then filter by creation time. -/
def affectedNetworks (since : Time) (cl : DockerClient) (args : List Pair) :
    List String × List PruneError :=
  match cl.networkList args with
  | .error e => ([], [.listFail "network" e])
  | .ok ns => affectedNetworksList since ns

/-- reaper.affectedVolumes, the loop over the listed volumes. The
RFC-3339 parser of the Go standard library is a parameter; a volume
whose creation stamp fails to parse is logged and skipped. -/
def affectedVolumesList (parse : String → Option Time) (since : Time) :
    List Volume → List String × List PruneError
  | [] => ([], [])
  | v :: rest =>
      let acc := affectedVolumesList parse since rest
      match parse v.createdAt with
      | none => acc
      | some created =>
          if timeAfter created since then (acc.1, .changes "volume" v.name :: acc.2)
          else (v.name :: acc.1, acc.2)

/-- reaper.affectedVolumes: list, then filter by creation time. -/
def affectedVolumes (parse : String → Option Time) (since : Time) (cl : DockerClient)
    (args : List Pair) : List String × List PruneError :=
  match cl.volumeList args with
  | .error e => ([], [.listFail "volume" e])
  | .ok vs => affectedVolumesList parse since vs

/-- reaper.affectedImages, the loop over the listed images. -/
def affectedImagesList (since : Time) : List ImageSummary → List String × List PruneError
  | [] => ([], [])
  | i :: rest =>
      let acc := affectedImagesList since rest
      if timeAfter (unixToTime i.created) since then (acc.1, .changes "image" i.id :: acc.2)
      else (i.id :: acc.1, acc.2)

/-- reaper.affectedImages: list, then filter by creation time. -/
def affectedImages (since : Time) (cl : DockerClient) (args : List Pair) :
    List String × List PruneError :=
  match cl.imageList args with
  | .error e => ([], [.listFail "image" e])
  | .ok is => affectedImagesList since is

/-- reaper.resources: for every filter of the snapshot gather the
affected containers, networks, volumes and images, concatenating
identifier lists and joining errors, best effort. -/
def resources (parse : String → Option Time) (since : Time) (cl : DockerClient) :
    List (List Pair) → Resources × List PruneError
  | [] => (⟨[], [], [], []⟩, [])
  | args :: rest =>
      let c := affectedContainers since cl args
      let n := affectedNetworks since cl args
      let v := affectedVolumes parse since cl args
      let i := affectedImages since cl args
      let acc := resources parse since cl rest
      (⟨c.1 ++ acc.1.containers, n.1 ++ acc.1.networks,
        v.1 ++ acc.1.volumes, i.1 ++ acc.1.images⟩,
       c.2 ++ n.2 ++ v.2 ++ i.2 ++ acc.2)

/-- Outcome of one kind-specific Remove call: success, the docker
not-found sentinel, or any other failure. -/
inductive RemoveOutcome where
  | ok
  | notFound
  | failed (msg : String)
deriving DecidableEq

/-- Whether a Remove call succeeded. -/
def RemoveOutcome.isOk : RemoveOutcome → Bool
  | .ok => true
  | _ => false

/-- Whether a Remove call failed with an error other than not-found. -/
def RemoveOutcome.isFailed : RemoveOutcome → Bool
  | .failed _ => true
  | _ => false

/-- reaper.remove, the attempt loop. The remover fn maps attempt number
and identifier to the call outcome (the Go closure may answer
differently on different attempts). One attempt walks the todo set:
a successful call deletes the identifier from todo and records it as
removed; a not-found answer leaves todo as is without requesting a
retry; any other failure sets the retry flag. When the retry flag is
clear the loop returns early with success; otherwise it continues until
the attempts are exhausted. Returns the identifiers removed, the final
todo set, and whether the loop ended in success. -/
def removeGo (fn : Nat → String → RemoveOutcome) :
    Nat → Nat → List String → List String → List String × List String × Bool
  | _, 0, todo, removed => (removed, todo, false)
  | attempt, r + 1, todo, removed =>
      let removedNow := todo.filter (fun id => (fn attempt id).isOk)
      let todoNext := todo.filter (fun id => !(fn attempt id).isOk)
      let retry := todo.any (fun id => (fn attempt id).isFailed)
      if retry then removeGo fn (attempt + 1) r todoNext (removed ++ removedNow)
      else (removed ++ removedNow, todoNext, true)

/-- reaper.remove: nothing to do on an empty identifier list; otherwise
seed the todo set (a Go map, so duplicates collapse), run the attempt
loop for at most retries attempts, and report the kind-level error
naming the number of items left in todo when the loop did not end in
success. -/
def removeKind (retries : Nat) (kind : String) (ids : List String)
    (fn : Nat → String → RemoveOutcome) : List String × List String × Option String :=
  if ids.isEmpty then ([], [], none)
  else
    let r := removeGo fn 1 retries ids.dedup []
    (r.1, r.2.1,
      if r.2.2 then none
      else some (kind ++ " left " ++ toString r.2.1.length ++ " items"))

/-- reaper.prune: remove the planned resources kind by kind, containers
first, then networks, volumes and images, collecting the per-kind
results. -/
def prune (retries : Nat) (res : Resources)
    (fnC fnN fnV fnI : Nat → String → RemoveOutcome) :
    (List String × List String × Option String) ×
    (List String × List String × Option String) ×
    (List String × List String × Option String) ×
    (List String × List String × Option String) :=
  (removeKind retries "container" res.containers fnC,
   removeKind retries "network" res.networks fnN,
   removeKind retries "volume" res.volumes fnV,
   removeKind retries "image" res.images fnI)

/-- Decision taken by reaper.pruneWait when the prune-check timer fires
and the plan has been computed. -/
inductive PruneWaitDecision where
  | retryAfter (d : Int)
  | finish (res : Resources) (errs : List PruneError)
deriving DecidableEq

/-- reaper.pruneWait, the prune-check case: when the computed plan
carries a changes-detected error and the shutdown deadline is unset
(zero) or still ahead of now, re-arm the timer with the
changes-retry-interval; otherwise return the computed plan and its
errors as they are. -/
def pruneCheckStep (changesRetryInterval : Int) (shutdownDeadline : Option Time)
    (now : Time) (res : Resources) (errs : List PruneError) : PruneWaitDecision :=
  if hasChangesDetected errs then
    if (match shutdownDeadline with
        | none => true
        | some dl => decide (now < dl)) then
      .retryAfter changesRetryInterval
    else .finish res errs
  else .finish res errs

/-- The prune-check loop of reaper.pruneWait, driven by a recompute
function from instants to plans and a fuel bound: each retry advances
the clock by the waited interval and recomputes. -/
def pruneWaitRun (changesRetryInterval : Int) (shutdownDeadline : Option Time)
    (compute : Time → Resources × List PruneError) :
    Nat → Time → Option (Resources × List PruneError)
  | 0, _ => none
  | fuel + 1, now =>
      let r := compute now
      match pruneCheckStep changesRetryInterval shutdownDeadline now r.1 r.2 with
      | .retryAfter d => pruneWaitRun changesRetryInterval shutdownDeadline compute fuel (now + d)
      | .finish r e => some (r, e)

/-- main.go prune, the container section for one filter: every listed
container is removed except those whose label map holds the ryuk label
with value true. Returns the identifiers handed to ContainerRemove. -/
def legacyPruneContainers : List Container → List String
  | [] => []
  | c :: rest =>
      if c.labels.lookup ryukLabel = some "true" then legacyPruneContainers rest
      else c.id :: legacyPruneContainers rest

/-- main.go prune, the volume section for one filter: clone the filter
args and add all=true only under the literal condition of the source,
namely when ServerVersion returned a non-nil error and the (then
zero-valued) reported API version compares at least 1.42. The result is
the args given to VolumesPrune; the original args are left untouched by
value semantics, as the clone is in Go. -/
def legacyVolumePruneFilterArgs (args : List Pair) (serverVersion : Except String String) :
    List Pair :=
  let argsClone := args
  let errNonNil : Bool := match serverVersion with
    | .error _ => true
    | .ok _ => false
  let apiVersion : String := match serverVersion with
    | .error _ => ""
    | .ok v => v
  if errNonNil && strLeB "1.42" apiVersion then argsClone ++ [("all", "true")]
  else argsClone

/-- The first event observed by main.go waitForPruneCondition: the
connection timeout firing, a first client connecting, or the signal
context being done. -/
inductive FirstConnEvent where
  | timeout
  | connected (addr : String)
  | signalled
deriving DecidableEq

/-- How the legacy process ends. -/
inductive LegacyOutcome where
  | panicked (msg : String)
  | normalExit (removedCounts : Nat × Nat × Nat × Nat)
deriving DecidableEq

/-- main.go waitForPruneCondition, first select: the connection timeout
panics with its message; a connection or a signal lets the function
continue or return normally. The result is the panic message, if any. -/
def waitForPruneConditionFirst : FirstConnEvent → Option String
  | .timeout => some "Timed out waiting for the first connection"
  | .connected _ => none
  | .signalled => none

/-- main.go main, abstracted over the first controller event: a panic in
waitForPruneCondition aborts the process before prune runs; otherwise
the process prunes and exits normally with the removal counts. -/
def legacyMainOutcome (first : FirstConnEvent) (counts : Nat × Nat × Nat × Nat) :
    LegacyOutcome :=
  match waitForPruneConditionFirst first with
  | some msg => .panicked msg
  | none => .normalExit counts

/-- Process exit status of a legacy outcome: a Go panic exits with
status 2, normal completion with 0. -/
def LegacyOutcome.exitCode : LegacyOutcome → Nat
  | .panicked _ => 2
  | .normalExit _ => 0

/-- Whether the outcome is a normal prune-and-exit-zero completion. -/
def LegacyOutcome.isNormalPruneExit : LegacyOutcome → Bool
  | .panicked _ => false
  | .normalExit _ => true

/-- Whether the first character list starts with the second. -/
def startsWithChars : List Char → List Char → Bool
  | _, [] => true
  | [], _ :: _ => false
  | c :: cs, p :: ps => c = p && startsWithChars cs ps

/-- Whether the pattern occurs somewhere in the character list. -/
def occursInChars (pat : List Char) : List Char → Bool
  | [] => startsWithChars [] pat
  | c :: cs => startsWithChars (c :: cs) pat || occursInChars pat cs

/-- Whether one string occurs inside another. -/
def containsSub (s sub : String) : Bool :=
  occursInChars sub.data s.data

/-! Order facts about the canonical key order. -/

theorem charListLe_total : ∀ as bs, charListLe as bs = true ∨ charListLe bs as = true := by
  intro as
  induction as with
  | nil => intro bs; left; rfl
  | cons a as ih =>
      intro bs
      cases bs with
      | nil => right; rfl
      | cons b bs =>
          by_cases hab : a = b
          · subst hab
            simp only [charListLe, if_pos rfl]
            exact ih bs
          · rcases lt_trichotomy a b with hlt | heq | hgt
            · left
              simp [charListLe, hab, hlt]
            · exact absurd heq hab
            · right
              have hba : ¬b = a := fun h => hab h.symm
              simp [charListLe, hba, hgt]

theorem charListLe_trans :
    ∀ as bs cs, charListLe as bs = true → charListLe bs cs = true →
      charListLe as cs = true := by
  intro as
  induction as with
  | nil => intro bs cs _ _; rfl
  | cons a as ih =>
      intro bs cs h1 h2
      cases bs with
      | nil => simp [charListLe] at h1
      | cons b bs =>
          cases cs with
          | nil => simp [charListLe] at h2
          | cons c cs =>
              by_cases hab : a = b
              · subst hab
                simp only [charListLe, if_pos rfl] at h1
                by_cases hbc : a = c
                · subst hbc
                  simp only [charListLe, if_pos rfl] at h2 ⊢
                  exact ih bs cs h1 h2
                · simp only [charListLe, if_neg hbc] at h2 ⊢
                  exact h2
              · simp only [charListLe, if_neg hab, decide_eq_true_eq] at h1
                by_cases hbc : b = c
                · subst hbc
                  simp [charListLe, hab, h1]
                · simp only [charListLe, if_neg hbc, decide_eq_true_eq] at h2
                  have hac : a < c := lt_trans h1 h2
                  simp [charListLe, ne_of_lt hac, hac]

theorem charListLe_antisymm :
    ∀ as bs, charListLe as bs = true → charListLe bs as = true → as = bs := by
  intro as
  induction as with
  | nil =>
      intro bs _ h2
      cases bs with
      | nil => rfl
      | cons b bs => simp [charListLe] at h2
  | cons a as ih =>
      intro bs h1 h2
      cases bs with
      | nil => simp [charListLe] at h1
      | cons b bs =>
          by_cases hab : a = b
          · subst hab
            simp only [charListLe, if_pos rfl] at h1 h2
            rw [ih bs h1 h2]
          · have hba : ¬b = a := fun h => hab h.symm
            simp only [charListLe, if_neg hab, decide_eq_true_eq] at h1
            simp only [charListLe, if_neg hba, decide_eq_true_eq] at h2
            exact absurd (lt_trans h1 h2) (lt_irrefl a)

instance : IsTotal String strLe :=
  ⟨fun a b => charListLe_total a.data b.data⟩

instance : IsTrans String strLe :=
  ⟨fun a b c => charListLe_trans a.data b.data c.data⟩

instance : IsAntisymm String strLe :=
  ⟨fun a b h1 h2 => by
    cases a with
    | mk da =>
        cases b with
        | mk db =>
            have : da = db := charListLe_antisymm da db h1 h2
            rw [this]⟩

/-- Sorting is invariant under permutation of the input. -/
theorem sortStrings_eq_of_perm {l1 l2 : List String} (h : l1.Perm l2) :
    sortStrings l1 = sortStrings l2 :=
  List.eq_of_perm_of_sorted
    ((List.perm_insertionSort strLe l1).trans
      (h.trans (List.perm_insertionSort strLe l2).symm))
    (List.sorted_insertionSort strLe l1)
    (List.sorted_insertionSort strLe l2)

/-- The canonical key list only depends on the multiset of pairs. -/
theorem canonKeys_eq_of_perm {ps1 ps2 : List Pair} (h : ps1.Perm ps2) :
    canonKeys ps1 = canonKeys ps2 :=
  sortStrings_eq_of_perm ((h.map Prod.fst).dedup)

/-- The canonical value object of a key only depends on the multiset of
pairs. -/
theorem canonValueObj_eq_of_perm {ps1 ps2 : List Pair} (h : ps1.Perm ps2) (k : String) :
    canonValueObj ps1 k = canonValueObj ps2 k := by
  unfold canonValueObj valuesFor
  rw [sortStrings_eq_of_perm (((h.filter _).map Prod.snd).dedup)]

/-- Canonicalization is order-insensitive: permuted pair lists share one
canonical form. -/
theorem canonicalJSON_eq_of_perm {ps1 ps2 : List Pair} (h : ps1.Perm ps2) :
    canonicalJSON ps1 = canonicalJSON ps2 := by
  unfold canonicalJSON
  rw [canonKeys_eq_of_perm h]
  have : ∀ k ∈ canonKeys ps2,
      jsonQuote k ++ ":" ++ canonValueObj ps1 k = jsonQuote k ++ ":" ++ canonValueObj ps2 k := by
    intro k _
    rw [canonValueObj_eq_of_perm h]
  rw [List.map_congr_left this]

/-! Structural facts about the filter store. -/

/-- Adding the same line a second time leaves the store unchanged. -/
theorem addFilter_self_noop (st : FilterStore) (x : String) :
    (addFilter (addFilter st x).1 x).1 = (addFilter st x).1 := by
  cases hq : parseQuery x with
  | none => simp [addFilter, hq]
  | some ps =>
      by_cases hmem : st.any (fun e => decide (e.1 = canonicalJSON ps)) = true
      · simp [addFilter, hq, hmem]
      · simp [addFilter, hq, hmem]

/-! Membership characterizations of the plan computation. -/

/-- Identifiers selected from one container listing. -/
theorem mem_affectedContainersList_fst (since : Time) (cs : List Container) (i : String) :
    i ∈ (affectedContainersList since cs).1 ↔
      ∃ c ∈ cs, c.id = i ∧ labelValue c.labels ryukLabel ≠ "true" ∧
        timeAfter (unixToTime c.created) since = false := by
  induction cs with
  | nil => simp [affectedContainersList]
  | cons c rest ih =>
      simp only [affectedContainersList, List.mem_cons]
      by_cases hl : labelValue c.labels ryukLabel = "true"
      · rw [if_pos hl, ih]
        constructor
        · rintro ⟨c', hc', rest'⟩
          exact ⟨c', Or.inr hc', rest'⟩
        · rintro ⟨c', hc' | hc', hrest⟩
          · subst hc'
            exact absurd hl hrest.2.1
          · exact ⟨c', hc', hrest⟩
      · rw [if_neg hl]
        by_cases ha : timeAfter (unixToTime c.created) since = true
        · rw [if_pos ha]
          rw [ih]
          constructor
          · rintro ⟨c', hc', rest'⟩
            exact ⟨c', Or.inr hc', rest'⟩
          · rintro ⟨c', hc' | hc', hrest⟩
            · subst hc'
              rw [ha] at hrest
              exact absurd hrest.2.2 (by simp)
            · exact ⟨c', hc', hrest⟩
        · rw [if_neg ha]
          simp only [List.mem_cons, ih]
          constructor
          · rintro (hi | ⟨c', hc', rest'⟩)
            · exact ⟨c, Or.inl rfl, hi.symm, hl, by simpa using ha⟩
            · exact ⟨c', Or.inr hc', rest'⟩
          · rintro ⟨c', hc' | hc', hrest⟩
            · subst hc'
              exact Or.inl hrest.1.symm
            · exact Or.inr ⟨c', hc', hrest⟩

/-- Changes-detected errors produced by one container listing. -/
theorem mem_affectedContainersList_snd (since : Time) (cs : List Container) (e : PruneError) :
    e ∈ (affectedContainersList since cs).2 ↔
      ∃ c ∈ cs, e = .changes "container" c.id ∧ labelValue c.labels ryukLabel ≠ "true" ∧
        timeAfter (unixToTime c.created) since = true := by
  induction cs with
  | nil => simp [affectedContainersList]
  | cons c rest ih =>
      simp only [affectedContainersList, List.mem_cons]
      by_cases hl : labelValue c.labels ryukLabel = "true"
      · rw [if_pos hl, ih]
        constructor
        · rintro ⟨c', hc', rest'⟩
          exact ⟨c', Or.inr hc', rest'⟩
        · rintro ⟨c', hc' | hc', hrest⟩
          · subst hc'
            exact absurd hl hrest.2.1
          · exact ⟨c', hc', hrest⟩
      · rw [if_neg hl]
        by_cases ha : timeAfter (unixToTime c.created) since = true
        · rw [if_pos ha]
          simp only [List.mem_cons, ih]
          constructor
          · rintro (he | ⟨c', hc', rest'⟩)
            · exact ⟨c, Or.inl rfl, he, hl, ha⟩
            · exact ⟨c', Or.inr hc', rest'⟩
          · rintro ⟨c', hc' | hc', hrest⟩
            · subst hc'
              exact Or.inl hrest.1
            · exact Or.inr ⟨c', hc', hrest⟩
        · rw [if_neg ha]
          rw [ih]
          constructor
          · rintro ⟨c', hc', rest'⟩
            exact ⟨c', Or.inr hc', rest'⟩
          · rintro ⟨c', hc' | hc', hrest⟩
            · subst hc'
              rw [hrest.2.2] at ha
              exact absurd rfl ha
            · exact ⟨c', hc', hrest⟩

/-- Identifiers selected from one network listing. -/
theorem mem_affectedNetworksList_fst (since : Time) (ns : List NetworkSummary) (i : String) :
    i ∈ (affectedNetworksList since ns).1 ↔
      ∃ n ∈ ns, n.id = i ∧ timeAfter n.created since = false := by
  induction ns with
  | nil => simp [affectedNetworksList]
  | cons n rest ih =>
      simp only [affectedNetworksList, List.mem_cons]
      by_cases ha : timeAfter n.created since = true
      · rw [if_pos ha, ih]
        constructor
        · rintro ⟨n', hn', rest'⟩
          exact ⟨n', Or.inr hn', rest'⟩
        · rintro ⟨n', hn' | hn', hrest⟩
          · subst hn'
            rw [ha] at hrest
            exact absurd hrest.2 (by simp)
          · exact ⟨n', hn', hrest⟩
      · rw [if_neg ha]
        simp only [List.mem_cons, ih]
        constructor
        · rintro (hi | ⟨n', hn', rest'⟩)
          · exact ⟨n, Or.inl rfl, hi.symm, by simpa using ha⟩
          · exact ⟨n', Or.inr hn', rest'⟩
        · rintro ⟨n', hn' | hn', hrest⟩
          · subst hn'
            exact Or.inl hrest.1.symm
          · exact Or.inr ⟨n', hn', hrest⟩

/-- Changes-detected errors produced by one network listing. -/
theorem mem_affectedNetworksList_snd (since : Time) (ns : List NetworkSummary) (e : PruneError) :
    e ∈ (affectedNetworksList since ns).2 ↔
      ∃ n ∈ ns, e = .changes "network" n.id ∧ timeAfter n.created since = true := by
  induction ns with
  | nil => simp [affectedNetworksList]
  | cons n rest ih =>
      simp only [affectedNetworksList, List.mem_cons]
      by_cases ha : timeAfter n.created since = true
      · rw [if_pos ha]
        simp only [List.mem_cons, ih]
        constructor
        · rintro (he | ⟨n', hn', rest'⟩)
          · exact ⟨n, Or.inl rfl, he, ha⟩
          · exact ⟨n', Or.inr hn', rest'⟩
        · rintro ⟨n', hn' | hn', hrest⟩
          · subst hn'
            exact Or.inl hrest.1
          · exact Or.inr ⟨n', hn', hrest⟩
      · rw [if_neg ha, ih]
        constructor
        · rintro ⟨n', hn', rest'⟩
          exact ⟨n', Or.inr hn', rest'⟩
        · rintro ⟨n', hn' | hn', hrest⟩
          · subst hn'
            rw [hrest.2] at ha
            exact absurd rfl ha
          · exact ⟨n', hn', hrest⟩

/-- Names selected from one volume listing. -/
theorem mem_affectedVolumesList_fst (parse : String → Option Time) (since : Time)
    (vs : List Volume) (i : String) :
    i ∈ (affectedVolumesList parse since vs).1 ↔
      ∃ v ∈ vs, v.name = i ∧ ∃ t, parse v.createdAt = some t ∧ timeAfter t since = false := by
  induction vs with
  | nil => simp [affectedVolumesList]
  | cons v rest ih =>
      simp only [affectedVolumesList, List.mem_cons]
      cases hp : parse v.createdAt with
      | none =>
          rw [ih]
          constructor
          · rintro ⟨v', hv', rest'⟩
            exact ⟨v', Or.inr hv', rest'⟩
          · rintro ⟨v', hv' | hv', hrest⟩
            · subst hv'
              obtain ⟨t, ht, _⟩ := hrest.2
              rw [hp] at ht
              cases ht
            · exact ⟨v', hv', hrest⟩
      | some t0 =>
          dsimp only
          by_cases ha : timeAfter t0 since = true
          · rw [if_pos ha, ih]
            constructor
            · rintro ⟨v', hv', rest'⟩
              exact ⟨v', Or.inr hv', rest'⟩
            · rintro ⟨v', hv' | hv', hrest⟩
              · subst hv'
                obtain ⟨t, ht, hta⟩ := hrest.2
                rw [hp] at ht
                cases ht
                rw [ha] at hta
                cases hta
              · exact ⟨v', hv', hrest⟩
          · rw [if_neg ha]
            simp only [List.mem_cons, ih]
            constructor
            · rintro (hi | ⟨v', hv', rest'⟩)
              · exact ⟨v, Or.inl rfl, hi.symm, t0, hp, by simpa using ha⟩
              · exact ⟨v', Or.inr hv', rest'⟩
            · rintro ⟨v', hv' | hv', hrest⟩
              · subst hv'
                exact Or.inl hrest.1.symm
              · exact Or.inr ⟨v', hv', hrest⟩

/-- Changes-detected errors produced by one volume listing. -/
theorem mem_affectedVolumesList_snd (parse : String → Option Time) (since : Time)
    (vs : List Volume) (e : PruneError) :
    e ∈ (affectedVolumesList parse since vs).2 ↔
      ∃ v ∈ vs, e = .changes "volume" v.name ∧
        ∃ t, parse v.createdAt = some t ∧ timeAfter t since = true := by
  induction vs with
  | nil => simp [affectedVolumesList]
  | cons v rest ih =>
      simp only [affectedVolumesList, List.mem_cons]
      cases hp : parse v.createdAt with
      | none =>
          rw [ih]
          constructor
          · rintro ⟨v', hv', rest'⟩
            exact ⟨v', Or.inr hv', rest'⟩
          · rintro ⟨v', hv' | hv', hrest⟩
            · subst hv'
              obtain ⟨t, ht, _⟩ := hrest.2
              rw [hp] at ht
              cases ht
            · exact ⟨v', hv', hrest⟩
      | some t0 =>
          dsimp only
          by_cases ha : timeAfter t0 since = true
          · rw [if_pos ha]
            simp only [List.mem_cons, ih]
            constructor
            · rintro (he | ⟨v', hv', rest'⟩)
              · exact ⟨v, Or.inl rfl, he, t0, hp, ha⟩
              · exact ⟨v', Or.inr hv', rest'⟩
            · rintro ⟨v', hv' | hv', hrest⟩
              · subst hv'
                exact Or.inl hrest.1
              · exact Or.inr ⟨v', hv', hrest⟩
          · rw [if_neg ha, ih]
            constructor
            · rintro ⟨v', hv', rest'⟩
              exact ⟨v', Or.inr hv', rest'⟩
            · rintro ⟨v', hv' | hv', hrest⟩
              · subst hv'
                obtain ⟨t, ht, hta⟩ := hrest.2
                rw [hp] at ht
                cases ht
                rw [hta] at ha
                exact absurd rfl ha
              · exact ⟨v', hv', hrest⟩

/-- Identifiers selected from one image listing. -/
theorem mem_affectedImagesList_fst (since : Time) (is : List ImageSummary) (i : String) :
    i ∈ (affectedImagesList since is).1 ↔
      ∃ im ∈ is, im.id = i ∧ timeAfter (unixToTime im.created) since = false := by
  induction is with
  | nil => simp [affectedImagesList]
  | cons im rest ih =>
      simp only [affectedImagesList, List.mem_cons]
      by_cases ha : timeAfter (unixToTime im.created) since = true
      · rw [if_pos ha, ih]
        constructor
        · rintro ⟨im', him', rest'⟩
          exact ⟨im', Or.inr him', rest'⟩
        · rintro ⟨im', him' | him', hrest⟩
          · subst him'
            rw [ha] at hrest
            exact absurd hrest.2 (by simp)
          · exact ⟨im', him', hrest⟩
      · rw [if_neg ha]
        simp only [List.mem_cons, ih]
        constructor
        · rintro (hi | ⟨im', him', rest'⟩)
          · exact ⟨im, Or.inl rfl, hi.symm, by simpa using ha⟩
          · exact ⟨im', Or.inr him', rest'⟩
        · rintro ⟨im', him' | him', hrest⟩
          · subst him'
            exact Or.inl hrest.1.symm
          · exact Or.inr ⟨im', him', hrest⟩

/-- Changes-detected errors produced by one image listing. -/
theorem mem_affectedImagesList_snd (since : Time) (is : List ImageSummary) (e : PruneError) :
    e ∈ (affectedImagesList since is).2 ↔
      ∃ im ∈ is, e = .changes "image" im.id ∧ timeAfter (unixToTime im.created) since = true := by
  induction is with
  | nil => simp [affectedImagesList]
  | cons im rest ih =>
      simp only [affectedImagesList, List.mem_cons]
      by_cases ha : timeAfter (unixToTime im.created) since = true
      · rw [if_pos ha]
        simp only [List.mem_cons, ih]
        constructor
        · rintro (he | ⟨im', him', rest'⟩)
          · exact ⟨im, Or.inl rfl, he, ha⟩
          · exact ⟨im', Or.inr him', rest'⟩
        · rintro ⟨im', him' | him', hrest⟩
          · subst him'
            exact Or.inl hrest.1
          · exact Or.inr ⟨im', him', hrest⟩
      · rw [if_neg ha, ih]
        constructor
        · rintro ⟨im', him', rest'⟩
          exact ⟨im', Or.inr him', rest'⟩
        · rintro ⟨im', him' | him', hrest⟩
          · subst him'
            rw [hrest.2] at ha
            exact absurd rfl ha
          · exact ⟨im', him', hrest⟩

/-- Identifiers selected by one affectedContainers call. -/
theorem mem_affectedContainers_fst (since : Time) (cl : DockerClient) (args : List Pair)
    (i : String) :
    i ∈ (affectedContainers since cl args).1 ↔
      ∃ cs, cl.containerList args = Except.ok cs ∧ i ∈ (affectedContainersList since cs).1 := by
  cases h : cl.containerList args <;> simp [affectedContainers, h]

/-- Errors of one affectedContainers call. -/
theorem mem_affectedContainers_snd (since : Time) (cl : DockerClient) (args : List Pair)
    (e : PruneError) :
    e ∈ (affectedContainers since cl args).2 ↔
      (∃ m, cl.containerList args = Except.error m ∧ e = .listFail "container" m) ∨
      (∃ cs, cl.containerList args = Except.ok cs ∧ e ∈ (affectedContainersList since cs).2) := by
  cases h : cl.containerList args <;> simp [affectedContainers, h]

/-- Identifiers selected by one affectedNetworks call. -/
theorem mem_affectedNetworks_fst (since : Time) (cl : DockerClient) (args : List Pair)
    (i : String) :
    i ∈ (affectedNetworks since cl args).1 ↔
      ∃ ns, cl.networkList args = Except.ok ns ∧ i ∈ (affectedNetworksList since ns).1 := by
  cases h : cl.networkList args <;> simp [affectedNetworks, h]

/-- Errors of one affectedNetworks call. -/
theorem mem_affectedNetworks_snd (since : Time) (cl : DockerClient) (args : List Pair)
    (e : PruneError) :
    e ∈ (affectedNetworks since cl args).2 ↔
      (∃ m, cl.networkList args = Except.error m ∧ e = .listFail "network" m) ∨
      (∃ ns, cl.networkList args = Except.ok ns ∧ e ∈ (affectedNetworksList since ns).2) := by
  cases h : cl.networkList args <;> simp [affectedNetworks, h]

/-- Names selected by one affectedVolumes call. -/
theorem mem_affectedVolumes_fst (parse : String → Option Time) (since : Time)
    (cl : DockerClient) (args : List Pair) (i : String) :
    i ∈ (affectedVolumes parse since cl args).1 ↔
      ∃ vs, cl.volumeList args = Except.ok vs ∧
        i ∈ (affectedVolumesList parse since vs).1 := by
  cases h : cl.volumeList args <;> simp [affectedVolumes, h]

/-- Errors of one affectedVolumes call. -/
theorem mem_affectedVolumes_snd (parse : String → Option Time) (since : Time)
    (cl : DockerClient) (args : List Pair) (e : PruneError) :
    e ∈ (affectedVolumes parse since cl args).2 ↔
      (∃ m, cl.volumeList args = Except.error m ∧ e = .listFail "volume" m) ∨
      (∃ vs, cl.volumeList args = Except.ok vs ∧
        e ∈ (affectedVolumesList parse since vs).2) := by
  cases h : cl.volumeList args <;> simp [affectedVolumes, h]

/-- Identifiers selected by one affectedImages call. -/
theorem mem_affectedImages_fst (since : Time) (cl : DockerClient) (args : List Pair)
    (i : String) :
    i ∈ (affectedImages since cl args).1 ↔
      ∃ imgs, cl.imageList args = Except.ok imgs ∧ i ∈ (affectedImagesList since imgs).1 := by
  cases h : cl.imageList args <;> simp [affectedImages, h]

/-- Errors of one affectedImages call. -/
theorem mem_affectedImages_snd (since : Time) (cl : DockerClient) (args : List Pair)
    (e : PruneError) :
    e ∈ (affectedImages since cl args).2 ↔
      (∃ m, cl.imageList args = Except.error m ∧ e = .listFail "image" m) ∨
      (∃ imgs, cl.imageList args = Except.ok imgs ∧ e ∈ (affectedImagesList since imgs).2) := by
  cases h : cl.imageList args <;> simp [affectedImages, h]

/-- Container identifiers of a computed plan, characterized. -/
theorem mem_resources_containers (parse : String → Option Time) (since : Time)
    (cl : DockerClient) (fs : List (List Pair)) (i : String) :
    i ∈ (resources parse since cl fs).1.containers ↔
      ∃ args ∈ fs, i ∈ (affectedContainers since cl args).1 := by
  induction fs with
  | nil => simp [resources]
  | cons args rest ih =>
      simp only [resources, List.mem_append, List.mem_cons, ih]
      constructor
      · rintro (h | ⟨a, ha, hi⟩)
        · exact ⟨args, Or.inl rfl, h⟩
        · exact ⟨a, Or.inr ha, hi⟩
      · rintro ⟨a, ha | ha, hi⟩
        · subst ha
          exact Or.inl hi
        · exact Or.inr ⟨a, ha, hi⟩

/-- Network identifiers of a computed plan, characterized. -/
theorem mem_resources_networks (parse : String → Option Time) (since : Time)
    (cl : DockerClient) (fs : List (List Pair)) (i : String) :
    i ∈ (resources parse since cl fs).1.networks ↔
      ∃ args ∈ fs, i ∈ (affectedNetworks since cl args).1 := by
  induction fs with
  | nil => simp [resources]
  | cons args rest ih =>
      simp only [resources, List.mem_append, List.mem_cons, ih]
      constructor
      · rintro (h | ⟨a, ha, hi⟩)
        · exact ⟨args, Or.inl rfl, h⟩
        · exact ⟨a, Or.inr ha, hi⟩
      · rintro ⟨a, ha | ha, hi⟩
        · subst ha
          exact Or.inl hi
        · exact Or.inr ⟨a, ha, hi⟩

/-- Volume names of a computed plan, characterized. -/
theorem mem_resources_volumes (parse : String → Option Time) (since : Time)
    (cl : DockerClient) (fs : List (List Pair)) (i : String) :
    i ∈ (resources parse since cl fs).1.volumes ↔
      ∃ args ∈ fs, i ∈ (affectedVolumes parse since cl args).1 := by
  induction fs with
  | nil => simp [resources]
  | cons args rest ih =>
      simp only [resources, List.mem_append, List.mem_cons, ih]
      constructor
      · rintro (h | ⟨a, ha, hi⟩)
        · exact ⟨args, Or.inl rfl, h⟩
        · exact ⟨a, Or.inr ha, hi⟩
      · rintro ⟨a, ha | ha, hi⟩
        · subst ha
          exact Or.inl hi
        · exact Or.inr ⟨a, ha, hi⟩

/-- Image identifiers of a computed plan, characterized. -/
theorem mem_resources_images (parse : String → Option Time) (since : Time)
    (cl : DockerClient) (fs : List (List Pair)) (i : String) :
    i ∈ (resources parse since cl fs).1.images ↔
      ∃ args ∈ fs, i ∈ (affectedImages since cl args).1 := by
  induction fs with
  | nil => simp [resources]
  | cons args rest ih =>
      simp only [resources, List.mem_append, List.mem_cons, ih]
      constructor
      · rintro (h | ⟨a, ha, hi⟩)
        · exact ⟨args, Or.inl rfl, h⟩
        · exact ⟨a, Or.inr ha, hi⟩
      · rintro ⟨a, ha | ha, hi⟩
        · subst ha
          exact Or.inl hi
        · exact Or.inr ⟨a, ha, hi⟩

/-- Errors of a computed plan, characterized by the filter they come
from and the kind part they come from. -/
theorem mem_resources_errs (parse : String → Option Time) (since : Time)
    (cl : DockerClient) (fs : List (List Pair)) (e : PruneError) :
    e ∈ (resources parse since cl fs).2 ↔
      ∃ args ∈ fs,
        e ∈ (affectedContainers since cl args).2 ∨ e ∈ (affectedNetworks since cl args).2 ∨
        e ∈ (affectedVolumes parse since cl args).2 ∨ e ∈ (affectedImages since cl args).2 := by
  induction fs with
  | nil => simp [resources]
  | cons args rest ih =>
      simp only [resources, List.mem_append, List.mem_cons, ih]
      constructor
      · rintro ((((h | h) | h) | h) | h)
        · exact ⟨args, Or.inl rfl, Or.inl h⟩
        · exact ⟨args, Or.inl rfl, Or.inr (Or.inl h)⟩
        · exact ⟨args, Or.inl rfl, Or.inr (Or.inr (Or.inl h))⟩
        · exact ⟨args, Or.inl rfl, Or.inr (Or.inr (Or.inr h))⟩
        · obtain ⟨a, ha, hi⟩ := h
          exact ⟨a, Or.inr ha, hi⟩
      · rintro ⟨a, ha | ha, hi⟩
        · subst ha
          rcases hi with h | h | h | h
          · exact Or.inl (Or.inl (Or.inl (Or.inl h)))
          · exact Or.inl (Or.inl (Or.inl (Or.inr h)))
          · exact Or.inl (Or.inl (Or.inr h))
          · exact Or.inl (Or.inr h)
        · exact Or.inr ⟨a, ha, hi⟩

/-! Facts about the removal loop. -/

/-- Everything the attempt loop reports as removed was already recorded
or was in the todo set it started from. -/
theorem removeGo_fst_subset (fn : Nat → String → RemoveOutcome) :
    ∀ fuel attempt todo removed x,
      x ∈ (removeGo fn attempt fuel todo removed).1 → x ∈ removed ∨ x ∈ todo := by
  intro fuel
  induction fuel with
  | zero =>
      intro attempt todo removed x h
      exact Or.inl h
  | succ r ih =>
      intro attempt todo removed x h
      simp only [removeGo] at h
      by_cases hr : (todo.any fun id => (fn attempt id).isFailed) = true
      · rw [if_pos hr] at h
        rcases ih (attempt + 1) _ _ x h with h1 | h1
        · rcases List.mem_append.mp h1 with h2 | h2
          · exact Or.inl h2
          · exact Or.inr (List.mem_of_mem_filter h2)
        · exact Or.inr (List.mem_of_mem_filter h1)
      · rw [if_neg hr] at h
        rcases List.mem_append.mp h with h2 | h2
        · exact Or.inl h2
        · exact Or.inr (List.mem_of_mem_filter h2)

/-- An identifier removed by the kind-level loop was in its input. -/
theorem removeKind_removed_subset (retries : Nat) (kind : String) (ids : List String)
    (fn : Nat → String → RemoveOutcome) (x : String) :
    x ∈ (removeKind retries kind ids fn).1 → x ∈ ids := by
  unfold removeKind
  by_cases hids : ids.isEmpty = true
  · rw [if_pos hids]
    intro h
    cases h
  · rw [if_neg hids]
    intro h
    rcases removeGo_fst_subset fn retries 1 ids.dedup [] x h with h1 | h1
    · cases h1
    · exact List.mem_dedup.mp h1

/-! Facts about the legacy revision. -/

/-- Containers removed by the legacy prune, characterized. -/
theorem mem_legacyPruneContainers (cs : List Container) (i : String) :
    i ∈ legacyPruneContainers cs ↔
      ∃ c ∈ cs, c.id = i ∧ c.labels.lookup ryukLabel ≠ some "true" := by
  induction cs with
  | nil => simp [legacyPruneContainers]
  | cons c rest ih =>
      simp only [legacyPruneContainers, List.mem_cons]
      by_cases hl : c.labels.lookup ryukLabel = some "true"
      · rw [if_pos hl, ih]
        constructor
        · rintro ⟨c', hc', rest'⟩
          exact ⟨c', Or.inr hc', rest'⟩
        · rintro ⟨c', hc' | hc', hrest⟩
          · subst hc'
            exact absurd hl hrest.2
          · exact ⟨c', hc', hrest⟩
      · rw [if_neg hl]
        simp only [List.mem_cons, ih]
        constructor
        · rintro (hi | ⟨c', hc', rest'⟩)
          · exact ⟨c, Or.inl rfl, hi.symm, hl⟩
          · exact ⟨c', Or.inr hc', rest'⟩
        · rintro ⟨c', hc' | hc', hrest⟩
          · subst hc'
            exact Or.inl hrest.1.symm
          · exact Or.inr ⟨c', hc', hrest⟩

/-- The two label spellings of the two revisions agree: indexing with
default empty string yields the string true exactly when lookup finds
that value. -/
theorem labelValue_eq_true_iff (ls : List Pair) (k : String) :
    labelValue ls k = "true" ↔ ls.lookup k = some "true" := by
  unfold labelValue
  cases h : ls.lookup k with
  | none =>
      simp only []
      constructor
      · intro he
        exact absurd he (by decide)
      · intro he
        cases he
  | some v => simp

/-! Claim theorems. -/

/-- Claim C3: whenever the plan computation returns a changes-detected
error, the controller waits the changes-retry-interval and recomputes as
long as no shutdown deadline is set or the current time is before it;
once the deadline is reached or passed, the prune check returns the plan
it computed as-is, so the loop finishes with that plan (forward
progress). -/
theorem c3_change_wait_until_shutdown_deadline
    (interval : Int) (deadline : Option Time) (now : Time) (res : Resources)
    (errs : List PruneError) (hch : hasChangesDetected errs = true) :
    (deadline = none →
      pruneCheckStep interval deadline now res errs = .retryAfter interval)
    ∧ (∀ dl, deadline = some dl → now < dl →
        pruneCheckStep interval deadline now res errs = .retryAfter interval)
    ∧ (∀ dl, deadline = some dl → dl ≤ now →
        pruneCheckStep interval deadline now res errs = .finish res errs)
    ∧ (∀ (compute : Time → Resources × List PruneError) (fuel : Nat) (dl : Time),
        deadline = some dl → dl ≤ now →
        pruneWaitRun interval deadline compute (fuel + 1) now = some (compute now)) := by
  refine ⟨?_, ?_, ?_, ?_⟩
  · intro hd
    subst hd
    simp [pruneCheckStep, hch]
  · intro dl hd hlt
    subst hd
    simp [pruneCheckStep, hch, hlt]
  · intro dl hd hle
    subst hd
    simp [pruneCheckStep, hch, not_lt.mpr hle]
  · intro compute fuel dl hd hle
    subst hd
    have hnlt : ¬now < dl := not_lt.mpr hle
    by_cases hc2 : hasChangesDetected (compute now).2 = true
    · simp [pruneWaitRun, pruneCheckStep, hc2, hnlt]
    · simp [pruneWaitRun, pruneCheckStep, hc2]

/-- Witness for C3 at a concrete state: with a changes-detected error
outstanding and the shutdown deadline already passed, the prune check
finishes with the computed plan as-is. -/
theorem c3_witness :
    hasChangesDetected [PruneError.changes "container" "c1"] = true
    ∧ pruneCheckStep 1 (some 5) 10 ⟨[], [], [], []⟩
        [PruneError.changes "container" "c1"] =
      .finish ⟨[], [], [], []⟩ [PruneError.changes "container" "c1"] :=
  ⟨by decide,
    (c3_change_wait_until_shutdown_deadline 1 (some 5) 10 ⟨[], [], [], []⟩
      [PruneError.changes "container" "c1"] (by decide)).2.2.1 5 rfl (by decide)⟩

/-- Remover used for the C4 failing input: the identifier a is always
reported not-found, the identifier b always fails. -/
def c4RemoveCalls : Nat → String → RemoveOutcome :=
  fun _ id => if id = "a" then .notFound else .failed "remove error"

/-- Claim C4, failing input: with remove-retries 2, a todo set of a and
b where every call on a reports not-found and every call on b fails, the
kind-level error says two items are left, counting the not-found
identifier a, which also stays in the final todo set and is never
recorded as removed. The code keeps a not-found identifier in todo, so
it does count toward the kind-level left-N error, contradicting the
claim. -/
theorem c4_not_found_counts_toward_left_items :
    (removeKind 2 "container" ["a", "b"] c4RemoveCalls).2.2 =
      some "container left 2 items"
    ∧ "a" ∈ (removeKind 2 "container" ["a", "b"] c4RemoveCalls).2.1
    ∧ (∀ attempt, c4RemoveCalls attempt "a" = .notFound)
    ∧ "a" ∉ (removeKind 2 "container" ["a", "b"] c4RemoveCalls).1 :=
  ⟨by decide, by decide, fun _ => rfl, by decide⟩

/-- Remover used for the C5 failing input: every call reports
not-found. -/
def c5RemoveCalls : Nat → String → RemoveOutcome := fun _ _ => .notFound

/-- Claim C5, failing input: with a single identifier whose remove call
reports not-found, the loop ends in success (no kind-level error) while
the todo set is not empty, contradicting the claimed equivalence that
the kind result is success exactly when todo is empty after the loop. -/
theorem c5_success_with_nonempty_todo :
    (removeKind 3 "container" ["a"] c5RemoveCalls).2.2 = none
    ∧ (removeKind 3 "container" ["a"] c5RemoveCalls).2.1 = ["a"] :=
  ⟨by decide, by decide⟩

/-- Claim C7: over any connection, the server replies with exactly one
four-byte ACK line per non-empty received line (sent after attempting
the add, on parse success and failure alike), an empty line produces no
reply and leaves the store untouched, and processing continues past an
empty line exactly as if it had not been received. -/
theorem c7_ack_per_nonempty_line (st : FilterStore) (lines : List String) :
    (handleConn st lines).2 =
      List.replicate (lines.countP (fun l => !decide (l = ""))) "ACK\n"
    ∧ handleLine st "" = (st, [])
    ∧ (∀ rest, handleConn st ("" :: rest) = handleConn st rest) := by
  refine ⟨?_, ?_, ?_⟩
  · induction lines generalizing st with
    | nil => simp [handleConn]
    | cons l rest ih =>
        by_cases hl : l = ""
        · subst hl
          simp [handleConn, handleLine, List.countP_cons, ih]
        · simp [handleConn, handleLine, hl, List.countP_cons, ih,
            List.replicate_succ]
  · simp [handleLine]
  · intro rest
    simp [handleConn, handleLine]

/-- Claim C8: in the legacy revision, when the connection timeout fires
before any client connects and before any signal, waitForPruneCondition
panics with a message mentioning the first connection; the process exits
with a non-zero status and does not reach the normal prune-and-exit-zero
completion. -/
theorem c8_first_connection_timeout_is_fatal (counts : Nat × Nat × Nat × Nat) :
    legacyMainOutcome .timeout counts =
      .panicked "Timed out waiting for the first connection"
    ∧ (legacyMainOutcome .timeout counts).exitCode = 2
    ∧ (legacyMainOutcome .timeout counts).isNormalPruneExit = false
    ∧ containsSub "Timed out waiting for the first connection" "first connection" = true :=
  ⟨rfl, rfl, rfl, by decide⟩

/-- Claim C9, failing input: the legacy volume-prune section never adds
the all=true augmentation, because the source guards it with a non-nil
ServerVersion error, under which the reported API version is the zero
value and never compares at least 1.42; in particular a successful
ServerVersion call reporting 1.45 leaves the filter args unchanged. -/
theorem c9_all_true_augmentation_never_applied :
    (∀ (args : List Pair) (sv : Except String String),
        legacyVolumePruneFilterArgs args sv = args)
    ∧ ("all", "true") ∉
        legacyVolumePruneFilterArgs [("label", "foo=bar")] (Except.ok "1.45")
    ∧ legacyVolumePruneFilterArgs [("label", "foo=bar")] (Except.ok "1.45") =
        [("label", "foo=bar")] := by
  have hall : ∀ (args : List Pair) (sv : Except String String),
      legacyVolumePruneFilterArgs args sv = args := by
    intro args sv
    cases sv with
    | error m =>
        have hlt : strLeB "1.42" "" = false := by decide
        simp [legacyVolumePruneFilterArgs, hlt]
    | ok v => simp [legacyVolumePruneFilterArgs]
  refine ⟨hall, ?_, hall _ _⟩
  rw [hall]
  decide

/-- Claim C6: adding a filter line twice leaves the store exactly as
adding it once, and two lines whose parsed key=value pairs are
permutations of each other canonicalize identically, so adding both to
an empty store leaves exactly one entry. -/
theorem c6_addFilter_idempotent_and_order_insensitive :
    (∀ (st : FilterStore) (x : String),
        (addFilter (addFilter st x).1 x).1 = (addFilter st x).1)
    ∧ (∀ (x y : String) (px py : List Pair),
        parseQuery x = some px → parseQuery y = some py → px.Perm py →
        canonicalJSON px = canonicalJSON py ∧
        (addFilter (addFilter ([] : FilterStore) x).1 y).1 =
          [(canonicalJSON px, px)]) := by
  constructor
  · exact addFilter_self_noop
  · intro x y px py hx hy hperm
    have hc := canonicalJSON_eq_of_perm hperm
    refine ⟨hc, ?_⟩
    have h1 : (addFilter ([] : FilterStore) x).1 = [(canonicalJSON px, px)] := by
      simp [addFilter, hx]
    rw [h1]
    simp [addFilter, hy, ← hc]

/-- Witness for C6: the two example lines of the specification parse to
permuted pair lists, share one canonical form, and adding both to the
empty store leaves a single entry. -/
theorem c6_witness :
    parseQuery "a=1&b=2" = some [("a", "1"), ("b", "2")]
    ∧ parseQuery "b=2&a=1" = some [("b", "2"), ("a", "1")]
    ∧ List.Perm [(("a" : String), ("1" : String)), ("b", "2")] [("b", "2"), ("a", "1")]
    ∧ canonicalJSON [("a", "1"), ("b", "2")] = canonicalJSON [("b", "2"), ("a", "1")]
    ∧ (addFilter (addFilter ([] : FilterStore) "a=1&b=2").1 "b=2&a=1").1 =
        [(canonicalJSON [("a", "1"), ("b", "2")], [("a", "1"), ("b", "2")])] :=
  ⟨by decide, by decide, by decide,
    (c6_addFilter_idempotent_and_order_insensitive.2 "a=1&b=2" "b=2&a=1"
      [("a", "1"), ("b", "2")] [("b", "2"), ("a", "1")]
      (by decide) (by decide) (by decide)).1,
    (c6_addFilter_idempotent_and_order_insensitive.2 "a=1&b=2" "b=2&a=1"
      [("a", "1"), ("b", "2")] [("b", "2"), ("a", "1")]
      (by decide) (by decide) (by decide)).2⟩

/-- Claim C10: a listed volume whose creation stamp does not parse is
skipped: the listing is processed exactly as if the volume were absent,
so the volume is neither planned nor reported as a changes-detected
error, and the remaining volumes are unaffected. -/
theorem c10_unparseable_volume_logged_and_skipped
    (parse : String → Option Time) (since : Time) (l1 l2 : List Volume) (v : Volume)
    (hv : parse v.createdAt = none)
    (hfresh : v.name ∉ (l1 ++ l2).map Volume.name) :
    affectedVolumesList parse since (l1 ++ v :: l2) =
      affectedVolumesList parse since (l1 ++ l2)
    ∧ v.name ∉ (affectedVolumesList parse since (l1 ++ v :: l2)).1
    ∧ PruneError.changes "volume" v.name ∉
        (affectedVolumesList parse since (l1 ++ v :: l2)).2 := by
  have hsplice : ∀ l : List Volume,
      affectedVolumesList parse since (l ++ v :: l2) =
        affectedVolumesList parse since (l ++ l2) := by
    intro l
    induction l with
    | nil => simp [affectedVolumesList, hv]
    | cons w rest ih => simp [affectedVolumesList, ih]
  refine ⟨hsplice l1, ?_, ?_⟩
  · rw [hsplice l1]
    intro hmem
    rw [mem_affectedVolumesList_fst] at hmem
    obtain ⟨v', hv', hname, _⟩ := hmem
    exact hfresh (List.mem_map.mpr ⟨v', hv', hname⟩)
  · rw [hsplice l1]
    intro hmem
    rw [mem_affectedVolumesList_snd] at hmem
    obtain ⟨v', hv', hname, _⟩ := hmem
    have : v'.name = v.name := by
      injection hname with h1 h2
      exact h2.symm
    exact hfresh (List.mem_map.mpr ⟨v', hv', this⟩)

/-- Witness for C10: one volume with an unparseable creation stamp is
dropped without a plan entry or an error, leaving the empty result. -/
theorem c10_witness :
    (fun _ : String => (none : Option Time)) "not-a-time" = none
    ∧ affectedVolumesList (fun _ => none) 0 ([] ++ ⟨"v1", "not-a-time"⟩ :: []) =
        affectedVolumesList (fun _ => (none : Option Time)) 0 ([] ++ [])
    ∧ "v1" ∉ (affectedVolumesList (fun _ => (none : Option Time)) 0
        ([] ++ ⟨"v1", "not-a-time"⟩ :: [])).1 :=
  ⟨rfl,
    (c10_unparseable_volume_logged_and_skipped (fun _ => none) 0 [] []
      ⟨"v1", "not-a-time"⟩ rfl (by simp)).1,
    (c10_unparseable_volume_logged_and_skipped (fun _ => none) 0 [] []
      ⟨"v1", "not-a-time"⟩ rfl (by simp)).2.1⟩

/-- Claim C2: a listed container whose labels map the ryuk label to the
string true never appears among the planned container identifiers, is
never handed to the container remover during execution, and is likewise
skipped by the legacy prune. The consistency hypothesis states that
listings describe one daemon: equal identifiers denote equal
containers. -/
theorem c2_reaper_labeled_container_never_pruned
    (parse : String → Option Time) (since : Time) (cl : DockerClient)
    (fs : List (List Pair)) (args : List Pair) (cs : List Container) (c : Container)
    (consC : ∀ a1 a2 cs1 cs2 c1 c2, cl.containerList a1 = Except.ok cs1 →
      cl.containerList a2 = Except.ok cs2 → c1 ∈ cs1 → c2 ∈ cs2 → c1.id = c2.id → c1 = c2)
    (hcs : cl.containerList args = Except.ok cs) (hc : c ∈ cs)
    (hl : labelValue c.labels ryukLabel = "true") :
    c.id ∉ (resources parse since cl fs).1.containers
    ∧ (∀ (retries : Nat) (fnC : Nat → String → RemoveOutcome),
        c.id ∉ (removeKind retries "container"
          (resources parse since cl fs).1.containers fnC).1)
    ∧ (∀ lcs : List Container, (lcs.map Container.id).Nodup → c ∈ lcs →
        c.id ∉ legacyPruneContainers lcs) := by
  have hmain : c.id ∉ (resources parse since cl fs).1.containers := by
    intro hmem
    rw [mem_resources_containers] at hmem
    obtain ⟨a, _, hi⟩ := hmem
    rw [mem_affectedContainers_fst] at hi
    obtain ⟨cs', hok, hi⟩ := hi
    rw [mem_affectedContainersList_fst] at hi
    obtain ⟨c', hc', hid, hlbl, _⟩ := hi
    have hcc : c' = c := consC a args cs' cs c' c hok hcs hc' hc hid
    rw [hcc] at hlbl
    exact hlbl hl
  refine ⟨hmain, ?_, ?_⟩
  · intro retries fnC hmem
    exact hmain (removeKind_removed_subset _ _ _ _ _ hmem)
  · intro lcs hnodup hclcs hmem
    rw [mem_legacyPruneContainers] at hmem
    obtain ⟨c', hc', hid, hlbl⟩ := hmem
    have hcc : c' = c := List.inj_on_of_nodup_map hnodup hc' hclcs hid
    rw [hcc] at hlbl
    exact hlbl ((labelValue_eq_true_iff _ _).mp hl)

/-- Daemon used by the C2 witness: one reaper-labelled container. -/
def c2Client : DockerClient where
  containerList := fun _ => Except.ok [⟨"c1", [(ryukLabel, "true")], 10⟩]
  networkList := fun _ => Except.ok []
  volumeList := fun _ => Except.ok []
  imageList := fun _ => Except.ok []

/-- Witness for C2: the reaper-labelled container of the concrete
daemon is absent from the computed plan and from the legacy removal
list. -/
theorem c2_witness :
    labelValue [(ryukLabel, "true")] ryukLabel = "true"
    ∧ "c1" ∉ (resources (fun _ => none) 0 c2Client [[]]).1.containers
    ∧ "c1" ∉ legacyPruneContainers [⟨"c1", [(ryukLabel, "true")], 10⟩] := by
  have happ := c2_reaper_labeled_container_never_pruned (fun _ => none) 0 c2Client
    [[]] [] [⟨"c1", [(ryukLabel, "true")], 10⟩] ⟨"c1", [(ryukLabel, "true")], 10⟩
    (by
      intro a1 a2 cs1 cs2 c1 c2 h1 h2 m1 m2 _
      simp only [c2Client] at h1 h2
      cases h1
      cases h2
      simp only [List.mem_singleton] at m1 m2
      rw [m1, m2])
    rfl (by simp) (by decide)
  exact ⟨by decide, happ.1,
    happ.2.2 [⟨"c1", [(ryukLabel, "true")], 10⟩] (by simp) (by simp)⟩

/-- Claim C1 (amended): for every prune pass with the given since bound,
every resource a List call returns whose creation timestamp is strictly
after since (for volumes, whose stamp parses to such a timestamp) is
excluded from the computed ResourcePlan; and, except for containers
bearing the reaper's identifying label set to the string true, which are
skipped before the creation-time check and produce no error, the pass
result carries a changes-detected error tagged with the resource's kind
and identifier. Consistency hypotheses state that the listings describe
one daemon: equal identifiers denote equal resources. -/
theorem c1_amended_fresh_resources_excluded_and_reported
    (parse : String → Option Time) (since : Time) (cl : DockerClient)
    (fs : List (List Pair))
    (consC : ∀ a1 a2 cs1 cs2 c1 c2, cl.containerList a1 = Except.ok cs1 →
      cl.containerList a2 = Except.ok cs2 → c1 ∈ cs1 → c2 ∈ cs2 → c1.id = c2.id → c1 = c2)
    (consN : ∀ a1 a2 ns1 ns2 n1 n2, cl.networkList a1 = Except.ok ns1 →
      cl.networkList a2 = Except.ok ns2 → n1 ∈ ns1 → n2 ∈ ns2 → n1.id = n2.id → n1 = n2)
    (consV : ∀ a1 a2 vs1 vs2 v1 v2, cl.volumeList a1 = Except.ok vs1 →
      cl.volumeList a2 = Except.ok vs2 → v1 ∈ vs1 → v2 ∈ vs2 → v1.name = v2.name → v1 = v2)
    (consI : ∀ a1 a2 is1 is2 i1 i2, cl.imageList a1 = Except.ok is1 →
      cl.imageList a2 = Except.ok is2 → i1 ∈ is1 → i2 ∈ is2 → i1.id = i2.id → i1 = i2) :
    (∀ args ∈ fs, ∀ cs, cl.containerList args = Except.ok cs → ∀ c ∈ cs,
        timeAfter (unixToTime c.created) since = true →
        c.id ∉ (resources parse since cl fs).1.containers
        ∧ (labelValue c.labels ryukLabel ≠ "true" →
            PruneError.changes "container" c.id ∈ (resources parse since cl fs).2))
    ∧ (∀ args ∈ fs, ∀ ns, cl.networkList args = Except.ok ns → ∀ n ∈ ns,
        timeAfter n.created since = true →
        n.id ∉ (resources parse since cl fs).1.networks
        ∧ PruneError.changes "network" n.id ∈ (resources parse since cl fs).2)
    ∧ (∀ args ∈ fs, ∀ vs, cl.volumeList args = Except.ok vs → ∀ v ∈ vs,
        ∀ t, parse v.createdAt = some t → timeAfter t since = true →
        v.name ∉ (resources parse since cl fs).1.volumes
        ∧ PruneError.changes "volume" v.name ∈ (resources parse since cl fs).2)
    ∧ (∀ args ∈ fs, ∀ imgs, cl.imageList args = Except.ok imgs → ∀ im ∈ imgs,
        timeAfter (unixToTime im.created) since = true →
        im.id ∉ (resources parse since cl fs).1.images
        ∧ PruneError.changes "image" im.id ∈ (resources parse since cl fs).2) := by
  refine ⟨?_, ?_, ?_, ?_⟩
  · intro args hargs cs hok c hc hafter
    constructor
    · intro hmem
      rw [mem_resources_containers] at hmem
      obtain ⟨a, _, hi⟩ := hmem
      rw [mem_affectedContainers_fst] at hi
      obtain ⟨cs', hok', hi⟩ := hi
      rw [mem_affectedContainersList_fst] at hi
      obtain ⟨c', hc', hid, _, hfalse⟩ := hi
      have hcc : c' = c := consC a args cs' cs c' c hok' hok hc' hc hid
      rw [hcc, hafter] at hfalse
      cases hfalse
    · intro hlbl
      rw [mem_resources_errs]
      refine ⟨args, hargs, Or.inl ?_⟩
      rw [mem_affectedContainers_snd]
      refine Or.inr ⟨cs, hok, ?_⟩
      rw [mem_affectedContainersList_snd]
      exact ⟨c, hc, rfl, hlbl, hafter⟩
  · intro args hargs ns hok n hn hafter
    constructor
    · intro hmem
      rw [mem_resources_networks] at hmem
      obtain ⟨a, _, hi⟩ := hmem
      rw [mem_affectedNetworks_fst] at hi
      obtain ⟨ns', hok', hi⟩ := hi
      rw [mem_affectedNetworksList_fst] at hi
      obtain ⟨n', hn', hid, hfalse⟩ := hi
      have hnn : n' = n := consN a args ns' ns n' n hok' hok hn' hn hid
      rw [hnn, hafter] at hfalse
      cases hfalse
    · rw [mem_resources_errs]
      refine ⟨args, hargs, Or.inr (Or.inl ?_)⟩
      rw [mem_affectedNetworks_snd]
      refine Or.inr ⟨ns, hok, ?_⟩
      rw [mem_affectedNetworksList_snd]
      exact ⟨n, hn, rfl, hafter⟩
  · intro args hargs vs hok v hv t hparse hafter
    constructor
    · intro hmem
      rw [mem_resources_volumes] at hmem
      obtain ⟨a, _, hi⟩ := hmem
      rw [mem_affectedVolumes_fst] at hi
      obtain ⟨vs', hok', hi⟩ := hi
      rw [mem_affectedVolumesList_fst] at hi
      obtain ⟨v', hv', hname, t', hparse', hfalse⟩ := hi
      have hvv : v' = v := consV a args vs' vs v' v hok' hok hv' hv hname
      rw [hvv] at hparse'
      rw [hparse] at hparse'
      injection hparse' with ht
      rw [← ht, hafter] at hfalse
      cases hfalse
    · rw [mem_resources_errs]
      refine ⟨args, hargs, Or.inr (Or.inr (Or.inl ?_))⟩
      rw [mem_affectedVolumes_snd]
      refine Or.inr ⟨vs, hok, ?_⟩
      rw [mem_affectedVolumesList_snd]
      exact ⟨v, hv, rfl, t, hparse, hafter⟩
  · intro args hargs imgs hok im him hafter
    constructor
    · intro hmem
      rw [mem_resources_images] at hmem
      obtain ⟨a, _, hi⟩ := hmem
      rw [mem_affectedImages_fst] at hi
      obtain ⟨is', hok', hi⟩ := hi
      rw [mem_affectedImagesList_fst] at hi
      obtain ⟨im', him', hid, hfalse⟩ := hi
      have hii : im' = im := consI a args is' imgs im' im hok' hok him' him hid
      rw [hii, hafter] at hfalse
      cases hfalse
    · rw [mem_resources_errs]
      refine ⟨args, hargs, Or.inr (Or.inr (Or.inr ?_))⟩
      rw [mem_affectedImages_snd]
      refine Or.inr ⟨imgs, hok, ?_⟩
      rw [mem_affectedImagesList_snd]
      exact ⟨im, him, rfl, hafter⟩

/-- Daemon used by the C1 counterexample: one reaper-labelled container
created after the prune start. -/
def c1Client : DockerClient where
  containerList := fun _ => Except.ok [⟨"c1", [(ryukLabel, "true")], 10⟩]
  networkList := fun _ => Except.ok []
  volumeList := fun _ => Except.ok []
  imageList := fun _ => Except.ok []

/-- Claim C1, counterexample to the claim as stated: a listed container
created strictly after since but bearing the reaper label is excluded
from the plan, yet the pass result carries no error at all, so no
changes-detected error tagged with its kind and identifier exists. -/
theorem c1_counterexample_labeled_container_not_reported :
    timeAfter (unixToTime 10) 0 = true
    ∧ (resources (fun _ => none) 0 c1Client [[]]).1.containers = []
    ∧ (resources (fun _ => none) 0 c1Client [[]]).2 = []
    ∧ PruneError.changes "container" "c1" ∉ (resources (fun _ => none) 0 c1Client [[]]).2 :=
  ⟨by decide, by decide, by decide, by decide⟩

/-- Daemon used by the C1 witness: one unlabelled container created
after the prune start. -/
def c1WitnessClient : DockerClient where
  containerList := fun _ => Except.ok [⟨"c2", [], 10⟩]
  networkList := fun _ => Except.ok []
  volumeList := fun _ => Except.ok []
  imageList := fun _ => Except.ok []

/-- Witness for the amended C1: an unlabelled container created after
since is excluded from the plan and reported as a changes-detected error
tagged with its kind and identifier. -/
theorem c1_amended_witness :
    timeAfter (unixToTime 10) 0 = true
    ∧ "c2" ∉ (resources (fun _ => none) 0 c1WitnessClient [[]]).1.containers
    ∧ PruneError.changes "container" "c2" ∈
        (resources (fun _ => none) 0 c1WitnessClient [[]]).2 := by
  have happ := (c1_amended_fresh_resources_excluded_and_reported (fun _ => none) 0
      c1WitnessClient [[]]
      (by
        intro a1 a2 cs1 cs2 c1 c2 h1 h2 m1 m2 _
        simp only [c1WitnessClient] at h1 h2
        cases h1
        cases h2
        simp only [List.mem_singleton] at m1 m2
        rw [m1, m2])
      (by
        intro a1 a2 ns1 ns2 n1 n2 h1 h2 m1 m2 _
        simp only [c1WitnessClient] at h1
        cases h1
        cases m1)
      (by
        intro a1 a2 vs1 vs2 v1 v2 h1 h2 m1 m2 _
        simp only [c1WitnessClient] at h1
        cases h1
        cases m1)
      (by
        intro a1 a2 is1 is2 i1 i2 h1 h2 m1 m2 _
        simp only [c1WitnessClient] at h1
        cases h1
        cases m1)).1
    [] (by simp) [⟨"c2", [], 10⟩] rfl ⟨"c2", [], 10⟩ (by simp) (by decide)
  exact ⟨by decide, happ.1, happ.2 (by decide)⟩

end MobyRyuk
